import Mathlib

/-!
# Verification of OCRmyPDF `src/ocrmypdf/_concurrent.py`

A shallow embedding of the two functions of `_concurrent.py`:

* `log_listener(queue)` — the log relay loop that drains a cross-worker
  message queue and re-dispatches each record into the logging system,
  stopping on the `None` sentinel and surviving per-record errors;
* `exec_progress_pool(...)` — the pool executor that starts the listener
  thread, opens a `tqdm` progress bar, creates a thread- or process-backed
  pool, streams unordered completions into the `task_finished` callback,
  and tears everything down through `except`/`finally` clauses.

The embedding is control-flow faithful: each run is modelled as a pure
function from the externally observable inputs (the sequence of outcomes
the completion iterator would deliver, the behaviour of the caller's
callback, the `PYTEST_CURRENT_TEST` environment flag, the `task_initargs`
argument) to the function's outcome together with the ordered trace of
side-effect events the Python code performs (thread start, pool
creation/termination/close/join, progress-bar open/close, sentinel enqueue,
listener join, callback invocations, progress updates). Task results are
opaque in the source and are modelled as `Nat`.
-/

namespace OCRmyPDF

/-! ## Log relay (`log_listener`, lines 32-53) -/

/-- One message taken from the multiprocessing queue by `log_listener`.
`sentinel` is the reserved `None` value; `record name good` is a log record
whose `record.name` is modelled as a `Nat` and where `good` says whether
`logging.getLogger(record.name).handle(record)` succeeds (`good = false`
models a record whose handling raises, e.g. a malformed record). -/
inductive LogMsg where
  | sentinel
  | record (name : Nat) (good : Bool)
deriving DecidableEq, Repr

/-- An observable action of the relay loop: `dispatch n` models
`logging.getLogger(record.name).handle(record)` completing for a record
named `n`; `diagnostic` models the `except Exception` branch printing
"Logging problem" and the traceback to `sys.stderr`. -/
inductive RelayEvent where
  | dispatch (name : Nat)
  | diagnostic
deriving DecidableEq, Repr

/-- `log_listener` (lines 32-53): `while True: record = queue.get(); if
record is None: break; logging.getLogger(record.name).handle(record)`, with
the whole body wrapped in `try/except Exception` that prints a diagnostic
and continues. The queue's contents are modelled as the list of messages
the loop will receive, in order. Returns the ordered list of relay events
together with `true` when the loop exited via the sentinel `break` (with an
empty list and `false` the real loop would block forever in `queue.get()`,
which is the closest pure rendering of that state). -/
def log_listener : List LogMsg → List RelayEvent × Bool
  | [] => ([], false)
  | LogMsg.sentinel :: _ => ([], true)
  | LogMsg.record n good :: rest =>
    ((if good then RelayEvent.dispatch n else RelayEvent.diagnostic)
        :: (log_listener rest).1,
      (log_listener rest).2)

/-- The prefix of the queue contents strictly before the first sentinel:
the messages the relay consumes and processes before it breaks. -/
def beforeSentinel : List LogMsg → List LogMsg
  | [] => []
  | LogMsg.sentinel :: _ => []
  | LogMsg.record n good :: rest => LogMsg.record n good :: beforeSentinel rest

/-- The relay event a single processed message produces: a dispatch for a
record that handles cleanly, a diagnostic for one whose handling raises.
(The sentinel case is unreachable through `beforeSentinel`.) -/
def msgEvent : LogMsg → RelayEvent
  | LogMsg.sentinel => RelayEvent.diagnostic
  | LogMsg.record n good =>
    if good then RelayEvent.dispatch n else RelayEvent.diagnostic

/-- Spec-side description of the relay's output on a run with no handling
errors: one dispatch per record, carrying the record's name, in arrival
order. -/
def dispatchesOf : List LogMsg → List RelayEvent
  | [] => []
  | LogMsg.sentinel :: rest => dispatchesOf rest
  | LogMsg.record n _ :: rest => RelayEvent.dispatch n :: dispatchesOf rest

theorem mem_of_mem_beforeSentinel {m : LogMsg} :
    ∀ {msgs : List LogMsg}, m ∈ beforeSentinel msgs → m ∈ msgs := by
  intro msgs
  induction msgs with
  | nil => intro h; simp [beforeSentinel] at h
  | cons hd rest ih =>
    intro h
    cases hd with
    | sentinel => simp [beforeSentinel] at h
    | record n good =>
      rw [beforeSentinel] at h
      rcases List.mem_cons.mp h with h | h
      · exact h ▸ List.mem_cons_self _ _
      · exact List.mem_cons_of_mem _ (ih h)

/-- Characterisation of a relay run that does see the sentinel: it
terminates via the sentinel `break`, and its event list is exactly the
per-message event of each message consumed before the first sentinel, in
order. -/
theorem log_listener_eq_of_sentinel_mem :
    ∀ {msgs : List LogMsg}, LogMsg.sentinel ∈ msgs →
      log_listener msgs = ((beforeSentinel msgs).map msgEvent, true) := by
  intro msgs
  induction msgs with
  | nil => intro h; simp at h
  | cons hd rest ih =>
    intro h
    cases hd with
    | sentinel => simp [log_listener, beforeSentinel]
    | record n good =>
      have hrest : LogMsg.sentinel ∈ rest := by
        rcases List.mem_cons.mp h with h | h
        · exact absurd h.symm (by simp)
        · exact h
      rw [log_listener, beforeSentinel, List.map_cons, ih hrest]
      rw [msgEvent]

theorem sentinel_not_mem_beforeSentinel :
    ∀ {msgs : List LogMsg}, LogMsg.sentinel ∉ beforeSentinel msgs := by
  intro msgs
  induction msgs with
  | nil => simp [beforeSentinel]
  | cons hd rest ih =>
    cases hd with
    | sentinel => simp [beforeSentinel]
    | record n good =>
      rw [beforeSentinel]
      intro h
      rcases List.mem_cons.mp h with h | h
      · exact absurd h (by simp)
      · exact ih h

theorem map_msgEvent_all_good :
    ∀ {l : List LogMsg}, LogMsg.sentinel ∉ l →
      (∀ n g, LogMsg.record n g ∈ l → g = true) →
      l.map msgEvent = dispatchesOf l := by
  intro l
  induction l with
  | nil => intro _ _; rfl
  | cons hd rest ih =>
    intro hs h
    have hsrest : LogMsg.sentinel ∉ rest := fun hm => hs (List.mem_cons_of_mem _ hm)
    have hrest : ∀ n g, LogMsg.record n g ∈ rest → g = true := by
      intro n g hm
      exact h n g (List.mem_cons_of_mem _ hm)
    cases hd with
    | sentinel => exact absurd (List.mem_cons_self _ _) hs
    | record n good =>
      have hg : good = true := h n good (List.mem_cons_self _ _)
      subst hg
      rw [List.map_cons, dispatchesOf, ih hsrest hrest, msgEvent]
      simp

/-- C6: the relay loop blocks for each message in turn; on the sentinel it
exits the loop, and otherwise it resolves the record's logger by the
record's name and hands the record over. Every non-sentinel record received
before the first sentinel is dispatched exactly once, in order, with its
name, and no record received after the sentinel is dispatched: when every
record handles cleanly, the event list is exactly `dispatchesOf` of the
prefix before the first sentinel, and the loop ends via the sentinel. -/
theorem log_listener_dispatch_prefix (msgs : List LogMsg)
    (hsent : LogMsg.sentinel ∈ msgs)
    (hgood : ∀ n g, LogMsg.record n g ∈ msgs → g = true) :
    (log_listener msgs).2 = true ∧
      (log_listener msgs).1 = dispatchesOf (beforeSentinel msgs) := by
  have hchar := log_listener_eq_of_sentinel_mem hsent
  have hpref : ∀ n g, LogMsg.record n g ∈ beforeSentinel msgs → g = true := by
    intro n g hm
    exact hgood n g (mem_of_mem_beforeSentinel hm)
  rw [hchar]
  exact ⟨rfl, map_msgEvent_all_good sentinel_not_mem_beforeSentinel hpref⟩

theorem log_listener_dispatch_prefix_witness :
    (log_listener [LogMsg.record 7 true, LogMsg.record 3 true,
        LogMsg.sentinel, LogMsg.record 9 true]).2 = true ∧
      (log_listener [LogMsg.record 7 true, LogMsg.record 3 true,
          LogMsg.sentinel, LogMsg.record 9 true]).1 =
        dispatchesOf (beforeSentinel [LogMsg.record 7 true, LogMsg.record 3 true,
          LogMsg.sentinel, LogMsg.record 9 true]) :=
  log_listener_dispatch_prefix
    [LogMsg.record 7 true, LogMsg.record 3 true, LogMsg.sentinel,
      LogMsg.record 9 true]
    (by decide) (by intro n g h; simp at h; tauto)

/-- C7: a record whose handling raises never kills the relay: the loop
still terminates via the sentinel (never via the error), the bad record
produces a stderr diagnostic, and every message before the first sentinel —
including the good records after the bad one — still produces its event in
order, so subsequent records are still dispatched. -/
theorem log_listener_error_resilient (msgs : List LogMsg)
    (hsent : LogMsg.sentinel ∈ msgs)
    (hbad : ∃ n, LogMsg.record n false ∈ beforeSentinel msgs) :
    (log_listener msgs).2 = true ∧
      RelayEvent.diagnostic ∈ (log_listener msgs).1 ∧
      (log_listener msgs).1 = (beforeSentinel msgs).map msgEvent := by
  have hchar := log_listener_eq_of_sentinel_mem hsent
  rw [hchar]
  refine ⟨rfl, ?_, rfl⟩
  obtain ⟨n, hmem⟩ := hbad
  have := List.mem_map_of_mem msgEvent hmem
  simpa [msgEvent] using this

theorem log_listener_error_resilient_witness :
    (log_listener [LogMsg.record 7 true, LogMsg.record 3 false,
        LogMsg.record 5 true, LogMsg.sentinel]).2 = true ∧
      RelayEvent.diagnostic ∈ (log_listener [LogMsg.record 7 true,
        LogMsg.record 3 false, LogMsg.record 5 true, LogMsg.sentinel]).1 ∧
      (log_listener [LogMsg.record 7 true, LogMsg.record 3 false,
          LogMsg.record 5 true, LogMsg.sentinel]).1 =
        (beforeSentinel [LogMsg.record 7 true, LogMsg.record 3 false,
          LogMsg.record 5 true, LogMsg.sentinel]).map msgEvent :=
  log_listener_error_resilient
    [LogMsg.record 7 true, LogMsg.record 3 false, LogMsg.record 5 true,
      LogMsg.sentinel]
    (by decide) ⟨3, by decide⟩

/-! ## Pool executor (`exec_progress_pool`, lines 56-110) -/

/-- What one call to `results.next()` on the `imap_unordered` iterator
delivers to the control thread, as observed at line 86: a task result value
(`ok`), a non-interrupt exception raised by a task and re-raised by
`next()` (`taskError`), or a `KeyboardInterrupt` delivered to the control
thread while it is blocked in `next()` (`interrupt`). Once the modelled
list is exhausted, `next()` raises `StopIteration`. Result values are
opaque in the source and modelled as `Nat`. -/
inductive NextOutcome where
  | ok (a : Nat)
  | taskError
  | interrupt
deriving DecidableEq, Repr

/-- The behaviour of one `task_finished(result, pbar)` call (line 87):
it returns normally (`ok`, updating the progress bar once per the
Progress Reporter contract), raises a non-interrupt exception (`err`), or
raises `KeyboardInterrupt` (`int`). -/
inductive CallOutcome where
  | ok
  | err
  | int
deriving DecidableEq, Repr

/-- An observable side effect of `exec_progress_pool`, in program order:
`listenerStart` is `listener.start()` (line 73); `pbarOpen`/`pbarClose`
are the `tqdm` scope entry and exit (line 76); `poolCreate` is the
`pool_class(...)` construction (lines 77-81); `onResultCall a` is the call
`task_finished(result, pbar)` for result `a`; `progressUpdate` is the
callback's progress-bar increment; `poolTerminate`, `poolClose`, `poolJoin`
are `pool.terminate()`, `pool.close()`, `pool.join()`; `sentinelEnqueue` is
`log_queue.put_nowait(None)` (line 106); `listenerJoin` is
`listener.join()` (line 110). -/
inductive Event where
  | listenerStart
  | pbarOpen
  | pbarClose
  | poolCreate
  | poolTerminate
  | poolClose
  | poolJoin
  | sentinelEnqueue
  | listenerJoin
  | onResultCall (a : Nat)
  | progressUpdate
deriving DecidableEq, Repr

/-- How the `while True` completion loop (lines 83-89) escapes its
enclosing `try`: `stopIteration` is the `except StopIteration: break`
(normal exhaustion of the input sequence); `error` is a non-interrupt
exception escaping from `results.next()` or from `task_finished`;
`interrupted` is a `KeyboardInterrupt` escaping from either. -/
inductive LoopExit where
  | stopIteration
  | error
  | interrupted
deriving DecidableEq, Repr

/-- The completion loop of lines 83-89: repeatedly call `results.next()`;
on a result, call `task_finished(result, pbar)`; on `StopIteration`,
break. Returns the events the loop performs (callback invocations and the
per-callback progress update) and the way it escaped. A raised exception
(from `next()` or from the callback) abandons the rest of the stream. -/
def completionLoop (onResult : Nat → CallOutcome) :
    List NextOutcome → List Event × LoopExit
  | [] => ([], LoopExit.stopIteration)
  | NextOutcome.ok a :: rest =>
    match onResult a with
    | CallOutcome.ok =>
      (Event.onResultCall a :: Event.progressUpdate
          :: (completionLoop onResult rest).1,
        (completionLoop onResult rest).2)
    | CallOutcome.err => ([Event.onResultCall a], LoopExit.error)
    | CallOutcome.int => ([Event.onResultCall a], LoopExit.interrupted)
  | NextOutcome.taskError :: _ => ([], LoopExit.error)
  | NextOutcome.interrupt :: _ => ([], LoopExit.interrupted)

/-- How a call to `exec_progress_pool` returns to its caller: a normal
return, a re-raised non-interrupt exception, a re-raised
`KeyboardInterrupt`, or the `TypeError` raised while building
`(log_queue, *task_initargs)` when `task_initargs` is `None`. -/
inductive Outcome where
  | normal
  | error
  | interrupted
  | typeError
deriving DecidableEq, Repr

/-- `exec_progress_pool` (lines 56-110), as outcome plus event trace.

Modelled inputs: `use_threads` selects `ThreadPool` versus `ProcessPool`
(lines 69-72) — the control thread's flow is identical for both;
`task_initargs` is the keyword argument defaulting to `None`;
`pytest_env` is whether `os.environ.get("PYTEST_CURRENT_TEST", "")` is
non-empty (line 96); `onResult` is the behaviour of `task_finished`;
`stream` is the sequence of outcomes `results.next()` would deliver.

Control flow translated: `listener.start()`; `with tqdm(...)` opens the
progress bar; the pool is constructed — with `task_initargs = None` the
argument tuple `(log_queue, *task_initargs)` raises `TypeError`, the
`with` block closes the bar, and the error propagates (no pool, no
`finally`, and `listener.join()` is skipped). Otherwise the completion
loop runs inside `try`; `except KeyboardInterrupt` terminates the pool and
re-raises; `except Exception` terminates the pool only outside pytest and
re-raises; `finally` enqueues the `None` sentinel and closes and joins the
pool; the `with` exit closes the bar; and `listener.join()` runs only when
no exception is propagating. -/
def exec_progress_pool (use_threads : Bool) (task_initargs : Option (List Nat))
    (pytest_env : Bool) (onResult : Nat → CallOutcome)
    (stream : List NextOutcome) : Outcome × List Event :=
  match use_threads, task_initargs with
  | _, Option.none =>
    (Outcome.typeError, [Event.listenerStart, Event.pbarOpen, Event.pbarClose])
  | _, Option.some _ =>
    match (completionLoop onResult stream).2 with
    | LoopExit.stopIteration =>
      (Outcome.normal,
        [Event.listenerStart, Event.pbarOpen, Event.poolCreate]
          ++ (completionLoop onResult stream).1
          ++ [Event.sentinelEnqueue, Event.poolClose, Event.poolJoin,
              Event.pbarClose, Event.listenerJoin])
    | LoopExit.error =>
      (Outcome.error,
        [Event.listenerStart, Event.pbarOpen, Event.poolCreate]
          ++ (completionLoop onResult stream).1
          ++ (if pytest_env then [] else [Event.poolTerminate])
          ++ [Event.sentinelEnqueue, Event.poolClose, Event.poolJoin,
              Event.pbarClose])
    | LoopExit.interrupted =>
      (Outcome.interrupted,
        [Event.listenerStart, Event.pbarOpen, Event.poolCreate]
          ++ (completionLoop onResult stream).1
          ++ [Event.poolTerminate, Event.sentinelEnqueue, Event.poolClose,
              Event.poolJoin, Event.pbarClose])

/-- The number of `task_finished` invocations recorded in a trace. -/
def countCalls (t : List Event) : Nat :=
  (t.filter fun e =>
    match e with
    | Event.onResultCall _ => true
    | _ => false).length

/-- The number of progress-bar increments recorded in a trace. -/
def countProgress (t : List Event) : Nat :=
  t.count Event.progressUpdate

/-- Spec-side description of the loop's events on an all-successful run:
one callback invocation followed by one progress update per input, in
arrival order. -/
def okEvents : List Nat → List Event
  | [] => []
  | a :: rest => Event.onResultCall a :: Event.progressUpdate :: okEvents rest

theorem completionLoop_mem_cases (onResult : Nat → CallOutcome) :
    ∀ (stream : List NextOutcome), ∀ e ∈ (completionLoop onResult stream).1,
      (∃ a, e = Event.onResultCall a) ∨ e = Event.progressUpdate := by
  intro stream
  induction stream with
  | nil => intro e he; simp [completionLoop] at he
  | cons hd rest ih =>
    intro e he
    cases hd with
    | ok a =>
      cases hc : onResult a with
      | ok =>
        simp only [completionLoop, hc, List.mem_cons] at he
        rcases he with rfl | rfl | he
        · exact Or.inl ⟨a, rfl⟩
        · exact Or.inr rfl
        · exact ih e he
      | err =>
        simp only [completionLoop, hc, List.mem_singleton] at he
        exact Or.inl ⟨a, he⟩
      | int =>
        simp only [completionLoop, hc, List.mem_singleton] at he
        exact Or.inl ⟨a, he⟩
    | taskError => simp [completionLoop] at he
    | interrupt => simp [completionLoop] at he

theorem not_mem_completionLoop (onResult : Nat → CallOutcome)
    (stream : List NextOutcome) (e : Event)
    (h1 : ∀ a, e ≠ Event.onResultCall a) (h2 : e ≠ Event.progressUpdate) :
    e ∉ (completionLoop onResult stream).1 := by
  intro hm
  rcases completionLoop_mem_cases onResult stream e hm with ⟨a, rfl⟩ | rfl
  · exact h1 a rfl
  · exact h2 rfl

theorem count_completionLoop_eq_zero (onResult : Nat → CallOutcome)
    (stream : List NextOutcome) (e : Event)
    (h1 : ∀ a, e ≠ Event.onResultCall a) (h2 : e ≠ Event.progressUpdate) :
    (completionLoop onResult stream).1.count e = 0 :=
  List.count_eq_zero.mpr (not_mem_completionLoop onResult stream e h1 h2)

theorem completionLoop_all_ok (onResult : Nat → CallOutcome) (inputs : List Nat)
    (h : ∀ a ∈ inputs, onResult a = CallOutcome.ok) :
    completionLoop onResult (inputs.map NextOutcome.ok) =
      (okEvents inputs, LoopExit.stopIteration) := by
  induction inputs with
  | nil => rfl
  | cons a rest ih =>
    have ha : onResult a = CallOutcome.ok := h a (List.mem_cons_self _ _)
    have hrest : ∀ b ∈ rest, onResult b = CallOutcome.ok := fun b hb =>
      h b (List.mem_cons_of_mem _ hb)
    simp only [List.map_cons, completionLoop, ha, ih hrest, okEvents]

theorem countCalls_append (t1 t2 : List Event) :
    countCalls (t1 ++ t2) = countCalls t1 + countCalls t2 := by
  simp [countCalls, List.filter_append]

theorem countCalls_okEvents (inputs : List Nat) :
    countCalls (okEvents inputs) = inputs.length := by
  induction inputs with
  | nil => rfl
  | cons a rest ih =>
    simp only [okEvents, countCalls, List.filter, List.length_cons] at ih ⊢
    omega

theorem countProgress_okEvents (inputs : List Nat) :
    countProgress (okEvents inputs) = inputs.length := by
  induction inputs with
  | nil => rfl
  | cons a rest ih =>
    simp only [okEvents, countProgress, List.count_cons, List.length_cons] at ih ⊢
    simp [ih]

/-- Unfolding of the executor on the normal exit path. -/
theorem exec_eq_normal (ut : Bool) (l : List Nat) (py : Bool)
    (onResult : Nat → CallOutcome) (stream : List NextOutcome)
    (h : (completionLoop onResult stream).2 = LoopExit.stopIteration) :
    exec_progress_pool ut (Option.some l) py onResult stream =
      (Outcome.normal,
        [Event.listenerStart, Event.pbarOpen, Event.poolCreate]
          ++ (completionLoop onResult stream).1
          ++ [Event.sentinelEnqueue, Event.poolClose, Event.poolJoin,
              Event.pbarClose, Event.listenerJoin]) := by
  simp only [exec_progress_pool, h]

/-- Unfolding of the executor on the non-interrupt error exit path. -/
theorem exec_eq_error (ut : Bool) (l : List Nat) (py : Bool)
    (onResult : Nat → CallOutcome) (stream : List NextOutcome)
    (h : (completionLoop onResult stream).2 = LoopExit.error) :
    exec_progress_pool ut (Option.some l) py onResult stream =
      (Outcome.error,
        [Event.listenerStart, Event.pbarOpen, Event.poolCreate]
          ++ (completionLoop onResult stream).1
          ++ (if py then [] else [Event.poolTerminate])
          ++ [Event.sentinelEnqueue, Event.poolClose, Event.poolJoin,
              Event.pbarClose]) := by
  simp only [exec_progress_pool, h]

/-- Unfolding of the executor on the interrupt exit path. -/
theorem exec_eq_interrupted (ut : Bool) (l : List Nat) (py : Bool)
    (onResult : Nat → CallOutcome) (stream : List NextOutcome)
    (h : (completionLoop onResult stream).2 = LoopExit.interrupted) :
    exec_progress_pool ut (Option.some l) py onResult stream =
      (Outcome.interrupted,
        [Event.listenerStart, Event.pbarOpen, Event.poolCreate]
          ++ (completionLoop onResult stream).1
          ++ [Event.poolTerminate, Event.sentinelEnqueue, Event.poolClose,
              Event.poolJoin, Event.pbarClose]) := by
  simp only [exec_progress_pool, h]

/-- C1: for a task input sequence of length K on which every task returns a
result and `task_finished` never raises, the completion loop ends via
`StopIteration` (the pool's end-of-results condition, not an error), the
run returns normally, `task_finished` is invoked exactly K times — once per
completed task — and the progress count reaches exactly K. -/
theorem exec_progress_pool_ok_run (ut : Bool) (l : List Nat) (py : Bool)
    (onResult : Nat → CallOutcome) (inputs : List Nat)
    (h : ∀ a ∈ inputs, onResult a = CallOutcome.ok) :
    (completionLoop onResult (inputs.map NextOutcome.ok)).2 =
        LoopExit.stopIteration ∧
      (exec_progress_pool ut (Option.some l) py onResult
          (inputs.map NextOutcome.ok)).1 = Outcome.normal ∧
      countCalls (exec_progress_pool ut (Option.some l) py onResult
          (inputs.map NextOutcome.ok)).2 = inputs.length ∧
      countProgress (exec_progress_pool ut (Option.some l) py onResult
          (inputs.map NextOutcome.ok)).2 = inputs.length := by
  have hloop := completionLoop_all_ok onResult inputs h
  have hexit : (completionLoop onResult (inputs.map NextOutcome.ok)).2 =
      LoopExit.stopIteration := by rw [hloop]
  have hev : (completionLoop onResult (inputs.map NextOutcome.ok)).1 =
      okEvents inputs := by rw [hloop]
  have hrun := exec_eq_normal ut l py onResult (inputs.map NextOutcome.ok) hexit
  refine ⟨hexit, ?_, ?_, ?_⟩
  · rw [hrun]
  · rw [hrun]
    simp only [countCalls_append, hev, countCalls_okEvents]
    norm_num [countCalls]
  · rw [hrun]
    simp only [countProgress, List.count_append, hev]
    have := countProgress_okEvents inputs
    rw [countProgress] at this
    rw [this]
    simp [List.count_cons]

theorem exec_progress_pool_ok_run_witness :
    (completionLoop (fun _ => CallOutcome.ok)
        (([2, 5, 9] : List Nat).map NextOutcome.ok)).2 =
        LoopExit.stopIteration ∧
      (exec_progress_pool true (Option.some []) false (fun _ => CallOutcome.ok)
          (([2, 5, 9] : List Nat).map NextOutcome.ok)).1 = Outcome.normal ∧
      countCalls (exec_progress_pool true (Option.some []) false
          (fun _ => CallOutcome.ok)
          (([2, 5, 9] : List Nat).map NextOutcome.ok)).2 = 3 ∧
      countProgress (exec_progress_pool true (Option.some []) false
          (fun _ => CallOutcome.ok)
          (([2, 5, 9] : List Nat).map NextOutcome.ok)).2 = 3 :=
  exec_progress_pool_ok_run true [] false (fun _ => CallOutcome.ok) [2, 5, 9]
    (fun _ _ => rfl)

/-- C10: with the default `task_initargs = None`, building the pool's
argument tuple `(log_queue, *task_initargs)` unpacks `None` and raises
`TypeError` before the pool is created and before any task is submitted:
the run exits with the `TypeError`, no pool is ever created, and the
callback is never invoked. The caller must pass an iterable (such as `()`)
for `task_initargs` on every call. -/
theorem exec_progress_pool_none_initargs_typeError (ut : Bool) (py : Bool)
    (onResult : Nat → CallOutcome) (stream : List NextOutcome) :
    exec_progress_pool ut Option.none py onResult stream =
        (Outcome.typeError,
          [Event.listenerStart, Event.pbarOpen, Event.pbarClose]) ∧
      Event.poolCreate ∉
        (exec_progress_pool ut Option.none py onResult stream).2 ∧
      ∀ a, Event.onResultCall a ∉
        (exec_progress_pool ut Option.none py onResult stream).2 := by
  refine ⟨rfl, ?_, fun a => ?_⟩
  · simp [exec_progress_pool]
  · simp [exec_progress_pool]

/-- C4: whenever the pool is actually constructed (`task_initargs` an
iterable), exactly one of normal return, re-raised non-interrupt exception,
re-raised interrupt reaches the caller, and on every such exit path the
trace — everything performed before control leaves the function — closes
the progress bar exactly once, enqueues the `None` sentinel to the log
queue exactly once, and closes and joins the pool exactly once. -/
theorem exec_progress_pool_cleanup_always (ut : Bool) (l : List Nat)
    (py : Bool) (onResult : Nat → CallOutcome) (stream : List NextOutcome) :
    ((exec_progress_pool ut (Option.some l) py onResult stream).1 =
          Outcome.normal ∨
        (exec_progress_pool ut (Option.some l) py onResult stream).1 =
          Outcome.error ∨
        (exec_progress_pool ut (Option.some l) py onResult stream).1 =
          Outcome.interrupted) ∧
      (exec_progress_pool ut (Option.some l) py onResult stream).2.count
          Event.pbarClose = 1 ∧
      (exec_progress_pool ut (Option.some l) py onResult stream).2.count
          Event.sentinelEnqueue = 1 ∧
      (exec_progress_pool ut (Option.some l) py onResult stream).2.count
          Event.poolClose = 1 ∧
      (exec_progress_pool ut (Option.some l) py onResult stream).2.count
          Event.poolJoin = 1 := by
  have hz : ∀ e : Event, (∀ a, e ≠ Event.onResultCall a) →
      e ≠ Event.progressUpdate →
      (completionLoop onResult stream).1.count e = 0 :=
    count_completionLoop_eq_zero onResult stream
  have h1 := hz Event.pbarClose (fun a => by simp) (by simp)
  have h2 := hz Event.sentinelEnqueue (fun a => by simp) (by simp)
  have h3 := hz Event.poolClose (fun a => by simp) (by simp)
  have h4 := hz Event.poolJoin (fun a => by simp) (by simp)
  cases hexit : (completionLoop onResult stream).2 with
  | stopIteration =>
    rw [exec_eq_normal ut l py onResult stream hexit]
    refine ⟨Or.inl rfl, ?_, ?_, ?_, ?_⟩ <;>
      simp [List.count_append, h1, h2, h3, h4, List.count_cons]
  | error =>
    rw [exec_eq_error ut l py onResult stream hexit]
    cases py <;>
      refine ⟨Or.inr (Or.inl rfl), ?_, ?_, ?_, ?_⟩ <;>
        simp [List.count_append, h1, h2, h3, h4, List.count_cons]
  | interrupted =>
    rw [exec_eq_interrupted ut l py onResult stream hexit]
    refine ⟨Or.inr (Or.inr rfl), ?_, ?_, ?_, ?_⟩ <;>
      simp [List.count_append, h1, h2, h3, h4, List.count_cons]

/-- C8: lifecycle ordering. On every run that constructs the pool, the
listener thread start, the progress-bar open and the pool creation each
happen exactly once, in the order listener-start, then progress-bar open,
then pool creation; and whenever the listener is joined at all, the join
comes only after the pool has been closed and joined — never the
reverse. -/
theorem exec_progress_pool_lifecycle_order (ut : Bool) (l : List Nat)
    (py : Bool) (onResult : Nat → CallOutcome) (stream : List NextOutcome) :
    (exec_progress_pool ut (Option.some l) py onResult stream).2.count
        Event.listenerStart = 1 ∧
      (exec_progress_pool ut (Option.some l) py onResult stream).2.count
        Event.pbarOpen = 1 ∧
      (exec_progress_pool ut (Option.some l) py onResult stream).2.count
        Event.poolCreate = 1 ∧
      [Event.listenerStart, Event.pbarOpen, Event.poolCreate].Sublist
        (exec_progress_pool ut (Option.some l) py onResult stream).2 ∧
      (Event.listenerJoin ∈
          (exec_progress_pool ut (Option.some l) py onResult stream).2 →
        (exec_progress_pool ut (Option.some l) py onResult stream).2.count
            Event.listenerJoin = 1 ∧
          [Event.poolClose, Event.poolJoin, Event.listenerJoin].Sublist
            (exec_progress_pool ut (Option.some l) py onResult stream).2) := by
  have hz : ∀ e : Event, (∀ a, e ≠ Event.onResultCall a) →
      e ≠ Event.progressUpdate →
      (completionLoop onResult stream).1.count e = 0 :=
    count_completionLoop_eq_zero onResult stream
  have hnm : ∀ e : Event, (∀ a, e ≠ Event.onResultCall a) →
      e ≠ Event.progressUpdate → e ∉ (completionLoop onResult stream).1 :=
    not_mem_completionLoop onResult stream
  have h1 := hz Event.listenerStart (fun a => by simp) (by simp)
  have h2 := hz Event.pbarOpen (fun a => by simp) (by simp)
  have h3 := hz Event.poolCreate (fun a => by simp) (by simp)
  have h4 := hz Event.listenerJoin (fun a => by simp) (by simp)
  have h5 := hnm Event.listenerJoin (fun a => by simp) (by simp)
  cases hexit : (completionLoop onResult stream).2 with
  | stopIteration =>
    rw [exec_eq_normal ut l py onResult stream hexit]
    refine ⟨?_, ?_, ?_, ?_, fun _ => ⟨?_, ?_⟩⟩
    · simp [List.count_append, h1, List.count_cons]
    · simp [List.count_append, h2, List.count_cons]
    · simp [List.count_append, h3, List.count_cons]
    · exact (List.sublist_append_left _ _).trans (List.sublist_append_left _ _)
    · simp [List.count_append, h4, List.count_cons]
    · exact (by decide :
          [Event.poolClose, Event.poolJoin, Event.listenerJoin].Sublist
            [Event.sentinelEnqueue, Event.poolClose, Event.poolJoin,
              Event.pbarClose, Event.listenerJoin]).trans
        (List.sublist_append_right _ _)
  | error =>
    rw [exec_eq_error ut l py onResult stream hexit]
    refine ⟨?_, ?_, ?_, ?_, fun hmem => absurd hmem ?_⟩
    · cases py <;> simp [List.count_append, h1, List.count_cons]
    · cases py <;> simp [List.count_append, h2, List.count_cons]
    · cases py <;> simp [List.count_append, h3, List.count_cons]
    · exact ((List.sublist_append_left _ _).trans
        (List.sublist_append_left _ _)).trans (List.sublist_append_left _ _)
    · cases py <;> simp [List.mem_append, h5]
  | interrupted =>
    rw [exec_eq_interrupted ut l py onResult stream hexit]
    refine ⟨?_, ?_, ?_, ?_, fun hmem => absurd hmem ?_⟩
    · simp [List.count_append, h1, List.count_cons]
    · simp [List.count_append, h2, List.count_cons]
    · simp [List.count_append, h3, List.count_cons]
    · exact (List.sublist_append_left _ _).trans (List.sublist_append_left _ _)
    · simp [List.mem_append, h5]

theorem exec_progress_pool_lifecycle_order_witness :
    (exec_progress_pool true (Option.some []) false (fun _ => CallOutcome.ok)
          [NextOutcome.ok 2]).2.count Event.listenerJoin = 1 ∧
      [Event.poolClose, Event.poolJoin, Event.listenerJoin].Sublist
        (exec_progress_pool true (Option.some []) false
          (fun _ => CallOutcome.ok) [NextOutcome.ok 2]).2 :=
  (exec_progress_pool_lifecycle_order true [] false (fun _ => CallOutcome.ok)
      [NextOutcome.ok 2]).2.2.2.2 (by decide)

/-- C3: when a non-interrupt exception escapes the completion loop —
raised by a task and re-raised by `results.next()`, or raised by
`task_finished` itself — the run re-raises it to the caller; outside the
pytest preserve-children mode (`PYTEST_CURRENT_TEST` empty) the pool is
forcibly terminated first, while under that mode the pool is never
terminated and is instead closed and joined normally. -/
theorem exec_progress_pool_error_policy (ut : Bool) (l : List Nat) (py : Bool)
    (onResult : Nat → CallOutcome) (stream : List NextOutcome)
    (h : (completionLoop onResult stream).2 = LoopExit.error) :
    (exec_progress_pool ut (Option.some l) py onResult stream).1 =
        Outcome.error ∧
      (py = false →
        Event.poolTerminate ∈
            (exec_progress_pool ut (Option.some l) py onResult stream).2 ∧
          [Event.poolTerminate, Event.poolClose, Event.poolJoin].Sublist
            (exec_progress_pool ut (Option.some l) py onResult stream).2) ∧
      (py = true →
        Event.poolTerminate ∉
            (exec_progress_pool ut (Option.some l) py onResult stream).2 ∧
          [Event.poolClose, Event.poolJoin].Sublist
            (exec_progress_pool ut (Option.some l) py onResult stream).2) := by
  have hnt := not_mem_completionLoop onResult stream Event.poolTerminate
    (fun a => by simp) (by simp)
  rw [exec_eq_error ut l py onResult stream h]
  cases py with
  | false =>
    refine ⟨rfl, fun _ => ⟨?_, ?_⟩, fun hpy => absurd hpy (by simp)⟩
    · simp [List.mem_append]
    · rw [List.append_assoc]
      exact (by decide :
          [Event.poolTerminate, Event.poolClose, Event.poolJoin].Sublist
            ([Event.poolTerminate] ++ [Event.sentinelEnqueue, Event.poolClose,
              Event.poolJoin, Event.pbarClose])).trans
        (List.sublist_append_right _ _)
  | true =>
    refine ⟨rfl, fun hpy => absurd hpy (by simp), fun _ => ⟨?_, ?_⟩⟩
    · simp [List.mem_append, hnt]
    · exact (by decide :
          [Event.poolClose, Event.poolJoin].Sublist
            [Event.sentinelEnqueue, Event.poolClose, Event.poolJoin,
              Event.pbarClose]).trans (List.sublist_append_right _ _)

theorem exec_progress_pool_error_policy_witness :
    (exec_progress_pool true (Option.some []) false (fun _ => CallOutcome.ok)
          [NextOutcome.taskError]).1 = Outcome.error ∧
      Event.poolTerminate ∈
        (exec_progress_pool true (Option.some []) false
          (fun _ => CallOutcome.ok) [NextOutcome.taskError]).2 ∧
      [Event.poolTerminate, Event.poolClose, Event.poolJoin].Sublist
        (exec_progress_pool true (Option.some []) false
          (fun _ => CallOutcome.ok) [NextOutcome.taskError]).2 :=
  let h := exec_progress_pool_error_policy true [] false
    (fun _ => CallOutcome.ok) [NextOutcome.taskError] (by decide)
  ⟨h.1, h.2.1 rfl⟩

theorem completionLoop_interrupt_after_ok (onResult : Nat → CallOutcome)
    (okPre : List Nat) (rest : List NextOutcome)
    (hok : ∀ a ∈ okPre, onResult a = CallOutcome.ok) :
    completionLoop onResult
        (okPre.map NextOutcome.ok ++ NextOutcome.interrupt :: rest) =
      (okEvents okPre, LoopExit.interrupted) := by
  induction okPre with
  | nil => rfl
  | cons a tl ih =>
    have ha : onResult a = CallOutcome.ok := hok a (List.mem_cons_self _ _)
    have htl : ∀ b ∈ tl, onResult b = CallOutcome.ok := fun b hb =>
      hok b (List.mem_cons_of_mem _ hb)
    simp only [List.map_cons, List.cons_append, completionLoop, ha,
      List.append_eq, ih htl, okEvents]

/-- C2 counterexample: on a run where a `KeyboardInterrupt` arrives while
the control thread is blocked in `results.next()`, the interrupt is
re-raised, but `listener.join()` (line 110) never executes — the
propagating interrupt leaves the `with` block and skips the join, so the
claim that the log-relay thread is still joined on this path is false. -/
theorem exec_progress_pool_interrupt_no_listener_join :
    (exec_progress_pool true (Option.some []) false (fun _ => CallOutcome.ok)
          [NextOutcome.interrupt]).1 = Outcome.interrupted ∧
      Event.sentinelEnqueue ∈
        (exec_progress_pool true (Option.some []) false
          (fun _ => CallOutcome.ok) [NextOutcome.interrupt]).2 ∧
      Event.listenerJoin ∉
        (exec_progress_pool true (Option.some []) false
          (fun _ => CallOutcome.ok) [NextOutcome.interrupt]).2 := by
  decide

/-- C2 (amended): if a `KeyboardInterrupt` is received while the executor
is blocked waiting for the next completion, the pool is forcibly
terminated with no drain, and before the interrupt is re-raised the
`finally` block enqueues the sentinel to the log relay's queue — so the
relay exits on its own and nothing deadlocks — and closes and joins the
pool; but the relay thread is signaled to stop rather than joined:
`listener.join()` does not execute on this path (the code's comment notes
that joining the listener inside the interrupt handler would deadlock, and
the re-raised interrupt skips the join after the `with` block). -/
theorem exec_progress_pool_interrupt_cleanup (ut : Bool) (l : List Nat)
    (py : Bool) (onResult : Nat → CallOutcome) (okPre : List Nat)
    (rest : List NextOutcome) (stream : List NextOutcome)
    (hstream : stream = okPre.map NextOutcome.ok ++ NextOutcome.interrupt :: rest)
    (hok : ∀ a ∈ okPre, onResult a = CallOutcome.ok) :
    (exec_progress_pool ut (Option.some l) py onResult stream).1 =
        Outcome.interrupted ∧
      Event.poolTerminate ∈
        (exec_progress_pool ut (Option.some l) py onResult stream).2 ∧
      [Event.poolTerminate, Event.sentinelEnqueue, Event.poolClose,
          Event.poolJoin].Sublist
        (exec_progress_pool ut (Option.some l) py onResult stream).2 ∧
      Event.listenerJoin ∉
        (exec_progress_pool ut (Option.some l) py onResult stream).2 := by
  subst hstream
  have hloop := completionLoop_interrupt_after_ok onResult okPre rest hok
  have hexit : (completionLoop onResult
      (okPre.map NextOutcome.ok ++ NextOutcome.interrupt :: rest)).2 =
      LoopExit.interrupted := by rw [hloop]
  have h5 := not_mem_completionLoop onResult
    (okPre.map NextOutcome.ok ++ NextOutcome.interrupt :: rest)
    Event.listenerJoin (fun a => by simp) (by simp)
  rw [exec_eq_interrupted ut l py onResult _ hexit]
  refine ⟨rfl, ?_, ?_, ?_⟩
  · simp [List.mem_append]
  · exact (by decide :
        [Event.poolTerminate, Event.sentinelEnqueue, Event.poolClose,
          Event.poolJoin].Sublist
          [Event.poolTerminate, Event.sentinelEnqueue, Event.poolClose,
            Event.poolJoin, Event.pbarClose]).trans
      (List.sublist_append_right _ _)
  · simp [List.mem_append, h5]

theorem exec_progress_pool_interrupt_cleanup_witness :
    (exec_progress_pool true (Option.some []) false (fun _ => CallOutcome.ok)
          [NextOutcome.ok 4, NextOutcome.interrupt]).1 =
        Outcome.interrupted ∧
      Event.poolTerminate ∈
        (exec_progress_pool true (Option.some []) false
          (fun _ => CallOutcome.ok)
          [NextOutcome.ok 4, NextOutcome.interrupt]).2 ∧
      [Event.poolTerminate, Event.sentinelEnqueue, Event.poolClose,
          Event.poolJoin].Sublist
        (exec_progress_pool true (Option.some []) false
          (fun _ => CallOutcome.ok)
          [NextOutcome.ok 4, NextOutcome.interrupt]).2 ∧
      Event.listenerJoin ∉
        (exec_progress_pool true (Option.some []) false
          (fun _ => CallOutcome.ok)
          [NextOutcome.ok 4, NextOutcome.interrupt]).2 :=
  exec_progress_pool_interrupt_cleanup true [] false (fun _ => CallOutcome.ok)
    [4] [] [NextOutcome.ok 4, NextOutcome.interrupt] rfl (fun _ _ => rfl)

/-- C5 counterexample: on an error exit with `PYTEST_CURRENT_TEST` set
(the pytest preserve-children mode), the pool is not terminated at all —
it is closed and joined normally — so the claim that the pool is
terminated on every interrupt/error exit path is false on the code. -/
theorem exec_progress_pool_pytest_error_no_terminate :
    (exec_progress_pool true (Option.some []) true (fun _ => CallOutcome.ok)
          [NextOutcome.taskError]).1 = Outcome.error ∧
      Event.poolTerminate ∉
        (exec_progress_pool true (Option.some []) true
          (fun _ => CallOutcome.ok) [NextOutcome.taskError]).2 := by
  decide

/-- C5 (amended): on the interrupt exit path, and on the error exit path
when the pytest preserve-children mode is not in effect, the pool is
terminated immediately — before the `finally` close/join, so the join that
follows is of an already-terminated pool and cannot block on in-flight
work; under the preserve-children mode an error exit never terminates the
pool. -/
theorem exec_progress_pool_abort_terminate_order (ut : Bool) (l : List Nat)
    (py : Bool) (onResult : Nat → CallOutcome) (stream : List NextOutcome) :
    ((completionLoop onResult stream).2 = LoopExit.interrupted →
        Event.poolTerminate ∈
            (exec_progress_pool ut (Option.some l) py onResult stream).2 ∧
          [Event.poolTerminate, Event.poolClose, Event.poolJoin].Sublist
            (exec_progress_pool ut (Option.some l) py onResult stream).2) ∧
      ((completionLoop onResult stream).2 = LoopExit.error → py = false →
        Event.poolTerminate ∈
            (exec_progress_pool ut (Option.some l) py onResult stream).2 ∧
          [Event.poolTerminate, Event.poolClose, Event.poolJoin].Sublist
            (exec_progress_pool ut (Option.some l) py onResult stream).2) ∧
      ((completionLoop onResult stream).2 = LoopExit.error → py = true →
        Event.poolTerminate ∉
          (exec_progress_pool ut (Option.some l) py onResult stream).2) := by
  refine ⟨fun hexit => ?_, fun hexit hpy => ?_, fun hexit hpy => ?_⟩
  · rw [exec_eq_interrupted ut l py onResult stream hexit]
    constructor
    · simp [List.mem_append]
    · exact (by decide :
          [Event.poolTerminate, Event.poolClose, Event.poolJoin].Sublist
            [Event.poolTerminate, Event.sentinelEnqueue, Event.poolClose,
              Event.poolJoin, Event.pbarClose]).trans
        (List.sublist_append_right _ _)
  · subst hpy
    rw [exec_eq_error ut l false onResult stream hexit]
    constructor
    · simp [List.mem_append]
    · rw [List.append_assoc]
      exact (by decide :
          [Event.poolTerminate, Event.poolClose, Event.poolJoin].Sublist
            ([Event.poolTerminate] ++ [Event.sentinelEnqueue, Event.poolClose,
              Event.poolJoin, Event.pbarClose])).trans
        (List.sublist_append_right _ _)
  · subst hpy
    have hnt := not_mem_completionLoop onResult stream Event.poolTerminate
      (fun a => by simp) (by simp)
    rw [exec_eq_error ut l true onResult stream hexit]
    simp [List.mem_append, hnt]

theorem exec_progress_pool_abort_terminate_order_witness :
    Event.poolTerminate ∈
        (exec_progress_pool true (Option.some []) false
          (fun _ => CallOutcome.ok) [NextOutcome.interrupt]).2 ∧
      [Event.poolTerminate, Event.poolClose, Event.poolJoin].Sublist
        (exec_progress_pool true (Option.some []) false
          (fun _ => CallOutcome.ok) [NextOutcome.interrupt]).2 :=
  (exec_progress_pool_abort_terminate_order true [] false
      (fun _ => CallOutcome.ok) [NextOutcome.interrupt]).1 (by decide)

end OCRmyPDF
